import Mathlib

/-!
Verification development for `nonlinear_avoidance/arch_obstacle.py`:
the hierarchical obstacle tree (`BlockArchObstacle`) and the obstacle
container (`MultiObstacleContainer`).

The embedding follows the Python source line by line:
* positions are pairs of rationals, poses are 2-D rigid transforms whose
  rotation part is kept as a (cos, sin) pair so that composition is exact
  rational arithmetic;
* Python exceptions are an explicit `PyErr` sum; operations that can raise
  return `Except PyErr _`, and `add_component`, whose body mutates the tree
  before the point where it can raise, returns the state reached when
  control leaves together with the optional exception;
* the `networkx.DiGraph` used by the source is embedded as an ordered node
  list (node key, node attributes) plus an ordered edge list, with
  `add_node` updating attributes of an existing key exactly as networkx does.
-/

set_option autoImplicit false

abbrev Vec2 := ℚ × ℚ

/-- Rotation part of a 2-D pose, stored as the (cos, sin) pair of the
orientation angle, so that rotation composition and application are exact. -/
structure Rot2 where
  c : ℚ
  s : ℚ
deriving DecidableEq

def Rot2.apply (r : Rot2) (v : Vec2) : Vec2 :=
  (r.c * v.1 - r.s * v.2, r.s * v.1 + r.c * v.2)

def Rot2.comp (r q : Rot2) : Rot2 :=
  ⟨r.c * q.c - r.s * q.s, r.s * q.c + r.c * q.s⟩

/-- Modelled from the spec: `vartools.states.Pose` (an external dependency,
not part of this repository) is a rigid-body transform supporting
composition of relative poses into a parent frame. -/
structure Pose where
  position : Vec2
  rot : Rot2
deriving DecidableEq

/-- Action of a pose on a position given relative to its frame. -/
def Pose.transform_position_from_relative (p : Pose) (v : Vec2) : Vec2 :=
  ((p.rot.apply v).1 + p.position.1, (p.rot.apply v).2 + p.position.2)

/-- Composition: a pose given relative to the frame of `p`, expressed in the
parent frame of `p`. -/
def Pose.transform_pose_from_relative (p : Pose) (q : Pose) : Pose :=
  ⟨p.transform_position_from_relative q.position, p.rot.comp q.rot⟩

/-- The Python exceptions that the embedded code can raise. -/
inductive PyErr where
  | notImplementedError
  | valueError
  | keyError
  | indexError
  | networkXError
deriving DecidableEq

def isOkE {α : Type} : Except PyErr α → Bool
  | .ok _ => true
  | .error _ => false

instance {ε α : Type} [DecidableEq ε] [DecidableEq α] : DecidableEq (Except ε α) := fun a b =>
  match a, b with
  | .ok x, .ok y =>
      if h : x = y then .isTrue (by rw [h]) else .isFalse (fun hh => h (Except.ok.inj hh))
  | .error x, .error y =>
      if h : x = y then .isTrue (by rw [h]) else .isFalse (fun hh => h (Except.error.inj hh))
  | .ok _, .error _ => .isFalse (fun hh => Except.noConfusion hh)
  | .error _, .ok _ => .isFalse (fun hh => Except.noConfusion hh)

/-- Python's builtin `min` over an iterable of floats: raises `ValueError`
on an empty iterable, otherwise folds the binary minimum. -/
def py_min (l : List ℚ) : Except PyErr ℚ :=
  match l with
  | [] => .error .valueError
  | x :: xs => .ok (xs.foldl min x)

/-- `np.min` over a sequence of floats: raises `ValueError` on an empty
sequence (zero-size reduction), otherwise the same fold as builtin `min`. -/
def np_min (l : List ℚ) : Except PyErr ℚ :=
  match l with
  | [] => .error .valueError
  | x :: xs => .ok (xs.foldl min x)

/-- Python list subscription `l[i]`: negative indices count from the end,
anything outside `[-len, len)` raises `IndexError`. -/
def pyGetItem {α : Type} (l : List α) (i : Int) : Except PyErr α :=
  let j : Int := if i < 0 then i + l.length else i
  if h : 0 ≤ j ∧ j < (l.length : Int) then
    .ok (l.get ⟨j.toNat, by omega⟩)
  else
    .error .indexError

/-- One node of the embedded `networkx.DiGraph`: its integer key together
with the node attributes used by the source (`indeces_children`, and
`local_reference` for nodes created by `add_component`; the
`references_children` attribute is written as the empty list and never
read, its only appending use being commented out in the source). -/
structure GraphNode where
  id : Int
  indeces_children : List Int
  local_reference : Option Vec2
deriving DecidableEq

/-- `networkx.DiGraph`: ordered node list (insertion order, keyed by `id`)
and ordered edge list. -/
structure DiGraph where
  nodes : List GraphNode
  edges : List (Int × Int)

/-- `add_node` as called from `set_root`: attributes
`references_children=[], indeces_children=[]`.  If the key already exists,
networkx merges the attributes, resetting `indeces_children` to `[]`. -/
def DiGraph.add_node_root (g : DiGraph) (i : Int) : DiGraph :=
  if g.nodes.any (fun n => n.id = i) then
    { g with nodes := g.nodes.map (fun n =>
        if n.id = i then { n with indeces_children := [] } else n) }
  else
    { g with nodes := g.nodes ++ [⟨i, [], none⟩] }

/-- `add_node` as called from `add_component`: attributes
`local_reference=ref, indeces_children=[], references_children=[]`.
If the key already exists the attributes are merged (overwritten). -/
def DiGraph.add_node_component (g : DiGraph) (i : Int) (ref : Vec2) : DiGraph :=
  if g.nodes.any (fun n => n.id = i) then
    { g with nodes := g.nodes.map (fun n =>
        if n.id = i then { n with indeces_children := [], local_reference := some ref } else n) }
  else
    { g with nodes := g.nodes ++ [⟨i, [], some ref⟩] }

/-- `self._graph.nodes[i]`: raises `KeyError` when `i` is not a node key. -/
def DiGraph.node_get (g : DiGraph) (i : Int) : Except PyErr GraphNode :=
  match g.nodes.find? (fun n => n.id = i) with
  | some n => .ok n
  | none => .error .keyError

/-- `self._graph.nodes[parent]["indeces_children"].append(new_id)`:
raises `KeyError` when `parent` is not a node key, otherwise appends. -/
def DiGraph.append_child (g : DiGraph) (parent new_id : Int) : Except PyErr DiGraph :=
  if g.nodes.any (fun n => n.id = parent) then
    .ok { g with nodes := g.nodes.map (fun n =>
      if n.id = parent then { n with indeces_children := n.indeces_children ++ [new_id] } else n) }
  else
    .error .keyError

/-- `add_edge`: appends the directed edge unless already present.  (networkx
would also create missing endpoint nodes; every call site of this module
reaches `add_edge` only with both endpoints present, so that branch is
unreachable here.) -/
def DiGraph.add_edge (g : DiGraph) (u v : Int) : DiGraph :=
  if (u, v) ∈ g.edges then g else { g with edges := g.edges ++ [(u, v)] }

/-- `self._graph.predecessors(i)`: raises a networkx error when `i` is not
a node, otherwise lists the sources of the incoming edges. -/
def DiGraph.predecessors (g : DiGraph) (i : Int) : Except PyErr (List Int) :=
  if g.nodes.any (fun n => n.id = i) then
    .ok ((g.edges.filter (fun e => e.2 = i)).map (fun e => e.1))
  else
    .error .networkXError

/-- A primitive shape as the core consumes it (an external
`dynamic_obstacle_avoidance` obstacle, treated opaquely): a mutable global
pose, a reference point, its gamma function, and the `shape` attribute
that `update_obstacles` assigns (absent, i.e. `none`, until then). -/
structure Obstacle where
  pose : Pose
  reference_point : Vec2
  get_gamma : Vec2 → ℚ
  shape : Option Pose := none

/-- `obstacle.set_reference_point(position, in_global_frame=False)`:
stores the reference point in the shape's own local frame. -/
def Obstacle.set_reference_point (o : Obstacle) (position : Vec2) : Obstacle :=
  { o with reference_point := position }

/-- State of `BlockArchObstacle`: the tree pose, the parent/child graph,
the recorded local poses and the member obstacles (the geometric
`wall_width` / `axes_length` data only feeds the constructor's concrete
cuboids and is not part of the tree bookkeeping). -/
structure BlockArchObstacle where
  pose : Pose
  graph : DiGraph
  local_poses : List Pose
  obstacle_list : List Obstacle
  root_idx : Int := 0

/-- The tree state before any insertion (the `__init__` field set-up just
before its `set_root` call). -/
def BlockArchObstacle.mk_empty (pose : Pose) : BlockArchObstacle :=
  { pose := pose, graph := ⟨[], []⟩, local_poses := [], obstacle_list := [] }

def BlockArchObstacle.n_components (t : BlockArchObstacle) : Nat :=
  t.obstacle_list.length

/-- `set_root`: records the local pose, moves the obstacle to the global
frame, appends it, and (re-)adds graph node 0.  The source performs no
emptiness check and cannot fail. -/
def BlockArchObstacle.set_root (t : BlockArchObstacle) (obstacle : Obstacle) : BlockArchObstacle :=
  let local_poses := t.local_poses ++ [obstacle.pose]
  let obstacle := { obstacle with pose := t.pose.transform_pose_from_relative obstacle.pose }
  { t with
    local_poses := local_poses
    obstacle_list := t.obstacle_list ++ [obstacle]
    graph := t.graph.add_node_root 0 }

/-- `add_component`: sets the reference point, records the local pose,
moves the obstacle to the global frame, appends it, adds graph node
`new_id`, then touches `nodes[parent_ind]` — the first point that can
raise (`KeyError`), with all the preceding appends already performed.
The result is the state when control leaves, with the optional exception. -/
def BlockArchObstacle.add_component (t : BlockArchObstacle) (obstacle : Obstacle)
    (reference_position : Vec2) (parent_ind : Int) :
    BlockArchObstacle × Option PyErr :=
  let obstacle := obstacle.set_reference_point reference_position
  let new_id : Int := t.obstacle_list.length
  let local_poses := t.local_poses ++ [obstacle.pose]
  let obstacle := { obstacle with pose := t.pose.transform_pose_from_relative obstacle.pose }
  let obstacle_list := t.obstacle_list ++ [obstacle]
  let graph := (t.graph.add_node_component new_id reference_position)
  let t := { t with local_poses := local_poses, obstacle_list := obstacle_list, graph := graph }
  match t.graph.append_child parent_ind new_id with
  | .error e => (t, some e)
  | .ok g => ({ t with graph := g.add_edge parent_ind new_id }, none)

/-- `BlockArchObstacle.get_gamma`: when `in_global_frame` is false the
source maps the position through the tree pose (it calls the pose-level
`transform_pose_from_relative` on the bare position array; the embedding
renders that as the transform's action on a position) — it does NOT raise —
then takes `np.min` of the members' gammas. -/
def BlockArchObstacle.get_gamma (t : BlockArchObstacle) (position : Vec2)
    (in_global_frame : Bool) : Except PyErr ℚ :=
  let position := if in_global_frame then position
    else t.pose.transform_position_from_relative position
  np_min (t.obstacle_list.map (fun o => o.get_gamma position))

/-- `get_parent_idx`: `None` for the root; otherwise the first predecessor.
The `try`/bare-`except` around the lookup traps any failure
(missing node, or a node with no predecessor) in `breakpoint()` and then
falls off the end of the function, returning `None`.  The Boolean records
whether that debugger trap was reached. -/
def BlockArchObstacle.get_parent_idx (t : BlockArchObstacle) (idx_obs : Int) :
    Option Int × Bool :=
  if idx_obs = t.root_idx then (none, false)
  else
    match t.graph.predecessors idx_obs with
    | .ok (p :: _) => (some p, false)
    | .ok [] => (none, true)
    | .error _ => (none, true)

/-- `get_component`: plain Python list subscription of the obstacle list. -/
def BlockArchObstacle.get_component (t : BlockArchObstacle) (idx_obs : Int) :
    Except PyErr Obstacle :=
  pyGetItem t.obstacle_list idx_obs

/-- `update_obstacles(delta_time)`: zips local poses with obstacles and
assigns the recomputed global pose to each obstacle's `shape` attribute —
not to its `pose`, which is left untouched. -/
def BlockArchObstacle.update_obstacles (t : BlockArchObstacle) (delta_time : ℚ) :
    BlockArchObstacle :=
  { t with obstacle_list :=
      ((t.local_poses.zip t.obstacle_list).map (fun po =>
        { po.2 with shape := some (t.pose.transform_pose_from_relative po.1) }))
      ++ t.obstacle_list.drop t.local_poses.length }

/-- Modelled from the spec: the `HierarchyObstacle` protocol of container
members lives in `nonlinear_avoidance/multi_obstacle_avoider.py`, which is
not under `src/`; per the spec an obstacle tree exposes a global-frame
gamma query and a global-frame free-space query.  The container always
passes `in_global_frame=True` to members, so members are modelled by their
global-frame answers. -/
structure HierarchyObstacle where
  get_gamma : Vec2 → ℚ
  is_in_free_space : Vec2 → Bool

structure MultiObstacleContainer where
  obstacle_list : List HierarchyObstacle

def MultiObstacleContainer.append (c : MultiObstacleContainer)
    (obstacle : HierarchyObstacle) : MultiObstacleContainer :=
  ⟨c.obstacle_list ++ [obstacle]⟩

def MultiObstacleContainer.len (c : MultiObstacleContainer) : Nat :=
  c.obstacle_list.length

/-- `MultiObstacleContainer.get_gamma`: raises `NotImplementedError` for a
local-frame request, otherwise fills the gamma array over the members and
returns builtin `min` of it. -/
def MultiObstacleContainer.get_gamma (c : MultiObstacleContainer) (position : Vec2)
    (in_global_frame : Bool) : Except PyErr ℚ :=
  if ¬ in_global_frame then .error .notImplementedError
  else py_min (c.obstacle_list.map (fun o => o.get_gamma position))

/-- The member loop of `MultiObstacleContainer.is_in_free_space`:
`continue` past free members, `return False` at the first occupied member,
`return True` after the loop. -/
def free_space_loop (position : Vec2) : List HierarchyObstacle → Bool
  | [] => true
  | o :: rest => if o.is_in_free_space position then free_space_loop position rest else false

/-- `MultiObstacleContainer.is_in_free_space`: raises `NotImplementedError`
for a local-frame request, otherwise the short-circuiting AND-fold. -/
def MultiObstacleContainer.is_in_free_space (c : MultiObstacleContainer)
    (position : Vec2) (in_global_frame : Bool) : Except PyErr Bool :=
  if ¬ in_global_frame then .error .notImplementedError
  else .ok (free_space_loop position c.obstacle_list)

/-- One `add_component` call of a build sequence. -/
structure ComponentSpec where
  obstacle : Obstacle
  reference_position : Vec2
  parent_ind : Int

/-- A tree built the intended way: one `set_root` on the empty state,
then the given `add_component` calls in order (keeping the state each call
returns, exceptions notwithstanding). -/
def buildTree (pose : Pose) (root : Obstacle) (steps : List ComponentSpec) :
    BlockArchObstacle :=
  steps.foldl
    (fun t s => (t.add_component s.obstacle s.reference_position s.parent_ind).1)
    ((BlockArchObstacle.mk_empty pose).set_root root)

/-- Validity of a build sequence from a given state: each `add_component`
call's parent names a node existing at the time of the call. -/
def validStepsB (t : BlockArchObstacle) : List ComponentSpec → Bool
  | [] => true
  | s :: rest =>
      t.graph.nodes.any (fun n => n.id = s.parent_ind) &&
      validStepsB (t.add_component s.obstacle s.reference_position s.parent_ind).1 rest

/-- A nonempty directed path along the edge list. -/
inductive EdgePathPos (edges : List (Int × Int)) : Int → Int → Prop
  | single {a b : Int} : (a, b) ∈ edges → EdgePathPos edges a b
  | cons {a b c : Int} : (a, b) ∈ edges → EdgePathPos edges b c → EdgePathPos edges a c

/-- Reachability from the root (node 0) along parent→child edges. -/
inductive RootedReach (edges : List (Int × Int)) : Int → Prop
  | root : RootedReach edges 0
  | step {p i : Int} : (p, i) ∈ edges → RootedReach edges p → RootedReach edges i

/-! ### Concrete fixtures used by witnesses and counterexamples -/

def poseA : Pose := ⟨(0, 0), ⟨1, 0⟩⟩

def poseB : Pose := ⟨(1, 0), ⟨1, 0⟩⟩

def obsA : Obstacle :=
  { pose := ⟨(2, 3), ⟨1, 0⟩⟩, reference_point := (0, 0),
    get_gamma := fun _ => 10 }

def obsB : Obstacle :=
  { pose := ⟨(0, 1), ⟨1, 0⟩⟩, reference_point := (0, 0),
    get_gamma := fun _ => 5 }

def obsC : Obstacle :=
  { pose := ⟨(1, 0), ⟨1, 0⟩⟩, reference_point := (0, 0),
    get_gamma := fun _ => 7 }

/-- A one-node tree: `set_root` on the empty state. -/
def tree1 : BlockArchObstacle :=
  (BlockArchObstacle.mk_empty poseA).set_root obsA

/-- The arch-shaped three-node tree: a root and two children of the root,
the build pattern of the `BlockArchObstacle` constructor. -/
def tree3 : BlockArchObstacle :=
  ((tree1.add_component obsB (1, 0) 0).1.add_component obsC (0, 1) 0).1

def hobsFree : HierarchyObstacle :=
  { get_gamma := fun _ => 3, is_in_free_space := fun _ => true }

def hobsOccupied : HierarchyObstacle :=
  { get_gamma := fun _ => -1, is_in_free_space := fun _ => false }

def cont2 : MultiObstacleContainer := ⟨[hobsFree, hobsOccupied]⟩

/-- The one-node tree after an external pose driver has assigned a new tree
pose (`tree.pose = P`), before `update_obstacles` is called. -/
def tree1_moved : BlockArchObstacle := { tree1 with pose := poseB }

/-- The two root-attached components of the arch build pattern. -/
def steps2 : List ComponentSpec := [⟨obsB, (1, 0), 0⟩, ⟨obsC, (0, 1), 0⟩]


/-! ### Helper lemmas -/

theorem foldl_min_le_init (xs : List ℚ) (a : ℚ) : xs.foldl min a ≤ a := by
  induction xs generalizing a with
  | nil => exact le_refl a
  | cons y ys ih => exact le_trans (ih (min a y)) (min_le_left a y)

theorem foldl_min_mem (xs : List ℚ) (a : ℚ) : xs.foldl min a = a ∨ xs.foldl min a ∈ xs := by
  induction xs generalizing a with
  | nil => exact Or.inl rfl
  | cons y ys ih =>
      rcases ih (min a y) with h | h
      · rcases min_choice a y with hm | hm
        · exact Or.inl (by rw [List.foldl_cons, h, hm])
        · exact Or.inr (by rw [List.foldl_cons, h, hm]; exact List.mem_cons_self y ys)
      · exact Or.inr (List.mem_cons_of_mem y h)

theorem foldl_min_le_mem (xs : List ℚ) (a x : ℚ) (hx : x ∈ xs) : xs.foldl min a ≤ x := by
  induction xs generalizing a with
  | nil => cases hx
  | cons y ys ih =>
      rcases List.mem_cons.mp hx with h | h
      · subst h
        exact le_trans (foldl_min_le_init ys (min a x)) (min_le_right a x)
      · exact ih (min a y) h

theorem py_min_spec (l : List ℚ) (h : l ≠ []) :
    ∃ m, py_min l = .ok m ∧ m ∈ l ∧ ∀ x ∈ l, m ≤ x := by
  match l with
  | [] => exact absurd rfl h
  | x :: xs =>
      refine ⟨xs.foldl min x, rfl, ?_, ?_⟩
      · rcases foldl_min_mem xs x with hm | hm
        · rw [hm]; exact List.mem_cons_self x xs
        · exact List.mem_cons_of_mem x hm
      · intro z hz
        rcases List.mem_cons.mp hz with h | h
        · subst h; exact foldl_min_le_init xs z
        · exact foldl_min_le_mem xs x z h

theorem np_min_spec (l : List ℚ) (h : l ≠ []) :
    ∃ m, np_min l = .ok m ∧ m ∈ l ∧ ∀ x ∈ l, m ≤ x := py_min_spec l h

theorem free_space_loop_all_iff (position : Vec2) (l : List HierarchyObstacle) :
    free_space_loop position l = true ↔ ∀ o ∈ l, o.is_in_free_space position = true := by
  induction l with
  | nil => simp [free_space_loop]
  | cons o rest ih =>
      by_cases ho : o.is_in_free_space position = true
      · simp [free_space_loop, ho, ih]
      · simp [free_space_loop, ho]

theorem free_space_loop_stops (position : Vec2) (pre : List HierarchyObstacle)
    (occ : HierarchyObstacle) (h : occ.is_in_free_space position = false) :
    ∀ suf₁ suf₂, free_space_loop position (pre ++ occ :: suf₁)
      = free_space_loop position (pre ++ occ :: suf₂) := by
  induction pre with
  | nil => intro suf₁ suf₂; simp [free_space_loop, h]
  | cons p ps ih =>
      intro suf₁ suf₂
      simp only [List.cons_append, free_space_loop, List.append_eq]
      rw [ih suf₁ suf₂]

theorem free_space_loop_false (position : Vec2) (pre : List HierarchyObstacle)
    (occ : HierarchyObstacle) (suf : List HierarchyObstacle)
    (h : occ.is_in_free_space position = false) :
    free_space_loop position (pre ++ occ :: suf) = false := by
  induction pre with
  | nil => simp [free_space_loop, h]
  | cons p ps ih =>
      simp only [List.cons_append, free_space_loop, List.append_eq]
      rw [ih]
      simp

theorem any_id_iff (g : DiGraph) (i : Int) :
    (g.nodes.any (fun n => n.id = i)) = true ↔ i ∈ g.nodes.map (fun n => n.id) := by
  simp [List.any_eq_true, List.mem_map]

theorem map_id_append_child (g : DiGraph) (parent new_id : Int) (g2 : DiGraph)
    (h : g.append_child parent new_id = .ok g2) :
    g2.nodes.map (fun n => n.id) = g.nodes.map (fun n => n.id) ∧ g2.edges = g.edges := by
  unfold DiGraph.append_child at h
  by_cases hc : (g.nodes.any (fun n => n.id = parent)) = true
  · rw [if_pos hc] at h
    cases h
    constructor
    · rw [List.map_map]
      apply List.map_congr_left
      intro n _
      by_cases hn : n.id = parent <;> simp [hn]
    · rfl
  · rw [if_neg hc] at h
    cases h

theorem append_child_ok (g : DiGraph) (parent new_id : Int)
    (h : parent ∈ g.nodes.map (fun n => n.id)) :
    ∃ g2, g.append_child parent new_id = .ok g2 := by
  unfold DiGraph.append_child
  rw [if_pos ((any_id_iff g parent).mpr h)]
  exact ⟨_, rfl⟩

theorem append_child_err (g : DiGraph) (parent new_id : Int)
    (h : parent ∉ g.nodes.map (fun n => n.id)) :
    g.append_child parent new_id = .error .keyError := by
  unfold DiGraph.append_child
  rw [if_neg (fun hc => h ((any_id_iff g parent).mp hc))]

theorem add_node_component_fresh (g : DiGraph) (i : Int) (r : Vec2)
    (h : i ∉ g.nodes.map (fun n => n.id)) :
    g.add_node_component i r = ⟨g.nodes ++ [⟨i, [], some r⟩], g.edges⟩ := by
  unfold DiGraph.add_node_component
  rw [if_neg (fun hc => h ((any_id_iff g i).mp hc))]

theorem add_edge_nodes (g : DiGraph) (u v : Int) : (g.add_edge u v).nodes = g.nodes := by
  unfold DiGraph.add_edge
  split <;> rfl

theorem add_edge_edges_of_not_mem (g : DiGraph) (u v : Int) (h : (u, v) ∉ g.edges) :
    (g.add_edge u v).edges = g.edges ++ [(u, v)] := by
  unfold DiGraph.add_edge
  rw [if_neg h]

/-- Characterization of a successful `add_component` call: the parent names
an existing node, the fresh index does not, and the new edge is fresh. -/
theorem add_component_spec (t : BlockArchObstacle) (o : Obstacle) (r : Vec2) (p : Int)
    (hp : p ∈ t.graph.nodes.map (fun n => n.id))
    (hn : ((t.obstacle_list.length : Int)) ∉ t.graph.nodes.map (fun n => n.id))
    (he : (p, (t.obstacle_list.length : Int)) ∉ t.graph.edges) :
    (t.add_component o r p).2 = none
  ∧ (t.add_component o r p).1.obstacle_list.length = t.obstacle_list.length + 1
  ∧ (t.add_component o r p).1.graph.nodes.map (fun n => n.id)
      = t.graph.nodes.map (fun n => n.id) ++ [((t.obstacle_list.length : Int))]
  ∧ (t.add_component o r p).1.graph.edges
      = t.graph.edges ++ [(p, ((t.obstacle_list.length : Int)))]
  ∧ (t.add_component o r p).1.root_idx = t.root_idx := by
  have hfresh := add_node_component_fresh t.graph ((t.obstacle_list.length : Int)) r hn
  have hp1 : p ∈ (DiGraph.mk (t.graph.nodes ++ [⟨(t.obstacle_list.length : Int), [], some r⟩])
      t.graph.edges).nodes.map (fun n => n.id) := by
    simp only [List.map_append]
    exact List.mem_append_left _ hp
  obtain ⟨g2, hg2⟩ := append_child_ok _ p ((t.obstacle_list.length : Int)) hp1
  obtain ⟨hid2, hedges2⟩ := map_id_append_child _ _ _ _ hg2
  have hemem : (p, ((t.obstacle_list.length : Int))) ∉ g2.edges := by
    rw [hedges2]; exact he
  simp only [BlockArchObstacle.add_component, Obstacle.set_reference_point, hfresh, hg2]
  refine ⟨by trivial, by simp, ?_, ?_, by trivial⟩
  · rw [add_edge_nodes, hid2]
    simp
  · rw [add_edge_edges_of_not_mem g2 p _ hemem, hedges2]

/-- Well-formedness invariant maintained by `set_root` followed by valid
`add_component` calls. -/
structure TreeWF (t : BlockArchObstacle) : Prop where
  root0 : t.root_idx = 0
  npos : 0 < t.obstacle_list.length
  ids : t.graph.nodes.map (fun n => n.id)
      = (List.range t.obstacle_list.length).map (fun k : ℕ => (k : ℤ))
  edge_bounds : ∀ e ∈ t.graph.edges,
      0 ≤ e.1 ∧ e.1 < e.2 ∧ e.2 < (t.obstacle_list.length : Int)
  root_no_parent : t.graph.edges.filter (fun e => e.2 = 0) = []
  unique_parent : ∀ i : Int, 1 ≤ i → i < (t.obstacle_list.length : Int) →
      (t.graph.edges.filter (fun e => e.2 = i)).length = 1

theorem treeWF_set_root (pose : Pose) (root : Obstacle) :
    TreeWF ((BlockArchObstacle.mk_empty pose).set_root root) := by
  refine ⟨rfl, Nat.succ_pos 0, ?_, ?_, rfl, ?_⟩
  · simp [BlockArchObstacle.set_root, BlockArchObstacle.mk_empty, DiGraph.add_node_root,
      List.range_succ]
  · intro e he
    simp [BlockArchObstacle.set_root, BlockArchObstacle.mk_empty, DiGraph.add_node_root] at he
  · intro i h1 h2
    have hone : (((BlockArchObstacle.mk_empty pose).set_root root).obstacle_list.length : Int) = 1 := by
      norm_num [BlockArchObstacle.set_root, BlockArchObstacle.mk_empty]
    rw [hone] at h2
    omega

theorem treeWF_add_component (t : BlockArchObstacle) (o : Obstacle) (r : Vec2) (p : Int)
    (hwf : TreeWF t) (hp : p ∈ t.graph.nodes.map (fun n => n.id)) :
    TreeWF (t.add_component o r p).1 ∧ (t.add_component o r p).2 = none := by
  have hprange : 0 ≤ p ∧ p < (t.obstacle_list.length : Int) := by
    rw [hwf.ids] at hp
    simp only [List.mem_map, List.mem_range] at hp
    obtain ⟨k, hk, hkp⟩ := hp
    omega
  have hn : ((t.obstacle_list.length : Int)) ∉ t.graph.nodes.map (fun n => n.id) := by
    rw [hwf.ids]
    simp only [List.mem_map, List.mem_range]
    rintro ⟨k, hk, hkp⟩
    omega
  have he : (p, (t.obstacle_list.length : Int)) ∉ t.graph.edges := by
    intro hmem
    have := (hwf.edge_bounds _ hmem).2.2
    simp only at this
    omega
  obtain ⟨herr, hlen, hids, hedges, hroot⟩ := add_component_spec t o r p hp hn he
  refine ⟨⟨?_, ?_, ?_, ?_, ?_, ?_⟩, herr⟩
  · rw [hroot, hwf.root0]
  · omega
  · rw [hids, hlen, hwf.ids, List.range_succ, List.map_append]
    rfl
  · intro e hmem
    rw [hedges] at hmem
    rcases List.mem_append.mp hmem with h | h
    · have := hwf.edge_bounds e h
      refine ⟨this.1, this.2.1, ?_⟩
      have := this.2.2
      simp only [hlen]
      push_cast
      omega
    · have : e = (p, (t.obstacle_list.length : Int)) := by simpa using h
      subst this
      refine ⟨hprange.1, hprange.2, ?_⟩
      simp only [hlen]
      push_cast
      omega
  · rw [hedges, List.filter_append, hwf.root_no_parent]
    have : ((t.obstacle_list.length : Int)) ≠ 0 := by
      have := hwf.npos
      omega
    simp [this]
  · intro i h1 h2
    rw [hedges, List.filter_append, List.length_append]
    by_cases hi : i = (t.obstacle_list.length : Int)
    · subst hi
      have hold : (t.graph.edges.filter (fun e => e.2 = (t.obstacle_list.length : Int))) = [] := by
        apply List.filter_eq_nil_iff.mpr
        intro e hmem
        have := (hwf.edge_bounds e hmem).2.2
        simp only [decide_eq_true_eq]
        omega
      rw [hold]
      simp
    · have hlt : i < (t.obstacle_list.length : Int) := by
        simp only [hlen] at h2
        push_cast at h2
        omega
      rw [hwf.unique_parent i h1 hlt]
      have : (([(p, ((t.obstacle_list.length : Int)))].filter (fun e => e.2 = i))) = [] := by
        simp [hi]
        intro hcon
        exact absurd hcon.symm hi
      rw [this]
      simp

theorem treeWF_fold (steps : List ComponentSpec) :
    ∀ t : BlockArchObstacle, TreeWF t → validStepsB t steps = true →
    TreeWF (steps.foldl
      (fun t s => (t.add_component s.obstacle s.reference_position s.parent_ind).1) t) := by
  induction steps with
  | nil => intro t hwf _; exact hwf
  | cons s rest ih =>
      intro t hwf hv
      rw [validStepsB, Bool.and_eq_true] at hv
      have hp : s.parent_ind ∈ t.graph.nodes.map (fun n => n.id) :=
        (any_id_iff t.graph s.parent_ind).mp hv.1
      have hstep := treeWF_add_component t s.obstacle s.reference_position s.parent_ind hwf hp
      rw [List.foldl_cons]
      exact ih _ hstep.1 hv.2

theorem edgePathPos_lt (edges : List (Int × Int))
    (hmono : ∀ e ∈ edges, e.1 < e.2) :
    ∀ a b : Int, EdgePathPos edges a b → a < b := by
  intro a b h
  induction h with
  | single hmem => exact hmono _ hmem
  | cons hmem _ ih => exact lt_trans (hmono _ hmem) ih

theorem rootedReach_of_parents (edges : List (Int × Int)) (n : Int)
    (hmono : ∀ e ∈ edges, 0 ≤ e.1 ∧ e.1 < e.2 ∧ e.2 < n)
    (hpar : ∀ i : Int, 1 ≤ i → i < n → 0 < (edges.filter (fun e => e.2 = i)).length) :
    ∀ k : ℕ, ∀ i : Int, 0 ≤ i → i < n → i.toNat ≤ k → RootedReach edges i := by
  intro k
  induction k with
  | zero =>
      intro i h0 _ hk
      have : i = 0 := by omega
      subst this
      exact RootedReach.root
  | succ k ih =>
      intro i h0 hn hk
      by_cases hi : i = 0
      · subst hi; exact RootedReach.root
      · have h1 : 1 ≤ i := by omega
        have hlen := hpar i h1 hn
        obtain ⟨e, hef⟩ : ∃ e, e ∈ edges.filter (fun e => e.2 = i) := by
          rcases hfl : edges.filter (fun e => e.2 = i) with _ | ⟨e, es⟩
          · rw [hfl] at hlen; simp at hlen
          · exact ⟨e, by rw [hfl]; exact List.mem_cons_self e es⟩
        have hmem := List.mem_filter.mp hef
        have hei : e.2 = i := by simpa using hmem.2
        have hb := hmono e hmem.1
        have hreachp : RootedReach edges e.1 := by
          apply ih e.1 hb.1 (by omega)
          omega
        have : RootedReach edges i := by
          rw [← hei]
          exact RootedReach.step (by rw [← Prod.mk.eta (p := e)] at hmem; exact hmem.1) hreachp
        exact this

theorem foldl_add_component_length (steps : List ComponentSpec) :
    ∀ t : BlockArchObstacle,
    (steps.foldl
      (fun t s => (t.add_component s.obstacle s.reference_position s.parent_ind).1)
      t).obstacle_list.length = t.obstacle_list.length + steps.length := by
  induction steps with
  | nil => intro t; simp
  | cons s rest ih =>
      intro t
      rw [List.foldl_cons, ih]
      have : ((t.add_component s.obstacle s.reference_position s.parent_ind).1).obstacle_list.length
          = t.obstacle_list.length + 1 := by
        simp [BlockArchObstacle.add_component]
        split <;> simp
      rw [this, List.length_cons]
      omega

theorem add_edge_mem (g : DiGraph) (u v : Int) : (u, v) ∈ (g.add_edge u v).edges := by
  by_cases h : (u, v) ∈ g.edges <;> simp [DiGraph.add_edge, h]

theorem add_node_component_ids (g : DiGraph) (i : Int) (r : Vec2) :
    ((g.add_node_component i r).nodes.map (fun n => n.id) = g.nodes.map (fun n => n.id)
      ∨ (g.add_node_component i r).nodes.map (fun n => n.id)
          = g.nodes.map (fun n => n.id) ++ [i])
  ∧ (g.add_node_component i r).edges = g.edges := by
  unfold DiGraph.add_node_component
  by_cases hc : (g.nodes.any fun n => n.id = i) = true
  · rw [if_pos hc]
    refine ⟨Or.inl ?_, rfl⟩
    rw [List.map_map]
    apply List.map_congr_left
    intro n _
    by_cases hn : n.id = i <;> simp [hn]
  · rw [if_neg hc]
    exact ⟨Or.inr (by simp), rfl⟩

/-! ### Claim theorems -/

/-- C1: the claim states that after `update_obstacles` with the tree pose
set to `P`, every member's global pose equals `P` composed with its
recorded local pose.  The code instead assigns that recomputed pose to the
member's `shape` attribute and leaves the member's `pose` untouched: on a
one-node tree built at pose `poseA` and then moved to pose `poseB`, after
`update_obstacles` the member's `pose` is still `poseA ∘ local_pose`, not
`poseB ∘ local_pose`, while `shape` has received `poseB ∘ local_pose`. -/
theorem update_obstacles_assigns_shape_not_pose :
    tree1_moved.local_poses = [obsA.pose]
  ∧ (tree1_moved.update_obstacles 1).pose = poseB
  ∧ (tree1_moved.update_obstacles 1).obstacle_list.map (fun (o : Obstacle) => o.pose)
      = [poseA.transform_pose_from_relative obsA.pose]
  ∧ (tree1_moved.update_obstacles 1).obstacle_list.map (fun (o : Obstacle) => o.pose)
      ≠ [poseB.transform_pose_from_relative obsA.pose]
  ∧ (tree1_moved.update_obstacles 1).obstacle_list.map (fun (o : Obstacle) => o.shape)
      = [some (poseB.transform_pose_from_relative obsA.pose)] := by
  refine ⟨rfl, rfl, rfl, ?_, rfl⟩
  intro h
  rw [show (tree1_moved.update_obstacles 1).obstacle_list.map (fun (o : Obstacle) => o.pose)
      = [poseA.transform_pose_from_relative obsA.pose] from rfl] at h
  simp [poseA, poseB, obsA, Pose.transform_pose_from_relative,
    Pose.transform_position_from_relative, Rot2.apply, Rot2.comp] at h

/-- C2: `BlockArchObstacle.get_gamma` on a tree with at least one member
returns the minimum of the members' gamma values at the queried position,
and `MultiObstacleContainer.get_gamma` on a container with at least one
tree returns the minimum of the member trees' gamma values. -/
theorem get_gamma_is_min (t : BlockArchObstacle) (c : MultiObstacleContainer)
    (position : Vec2) (ht : 0 < t.obstacle_list.length)
    (hc : 0 < c.obstacle_list.length) :
    (∃ m, t.get_gamma position true = .ok m
        ∧ m ∈ t.obstacle_list.map (fun o => o.get_gamma position)
        ∧ ∀ x ∈ t.obstacle_list.map (fun o => o.get_gamma position), m ≤ x)
  ∧ (∃ m, c.get_gamma position true = .ok m
        ∧ m ∈ c.obstacle_list.map (fun o => o.get_gamma position)
        ∧ ∀ x ∈ c.obstacle_list.map (fun o => o.get_gamma position), m ≤ x) := by
  constructor
  · have hne : t.obstacle_list.map (fun o => o.get_gamma position) ≠ [] := by
      intro hcon
      rw [List.map_eq_nil_iff] at hcon
      rw [hcon] at ht
      simp at ht
    obtain ⟨m, hm, hmem, hle⟩ := np_min_spec _ hne
    refine ⟨m, ?_, hmem, hle⟩
    rw [show t.get_gamma position true
        = np_min (t.obstacle_list.map (fun o => o.get_gamma position)) from rfl]
    exact hm
  · have hne : c.obstacle_list.map (fun o => o.get_gamma position) ≠ [] := by
      intro hcon
      rw [List.map_eq_nil_iff] at hcon
      rw [hcon] at hc
      simp at hc
    obtain ⟨m, hm, hmem, hle⟩ := py_min_spec _ hne
    refine ⟨m, ?_, hmem, hle⟩
    rw [show c.get_gamma position true
        = py_min (c.obstacle_list.map (fun o => o.get_gamma position)) from rfl]
    exact hm

/-- Witness for C2 at the three-member arch tree and the two-tree
container, queried at the origin. -/
theorem get_gamma_is_min_witness :
    (∃ m, tree3.get_gamma (0, 0) true = .ok m
        ∧ m ∈ tree3.obstacle_list.map (fun o => o.get_gamma (0, 0))
        ∧ ∀ x ∈ tree3.obstacle_list.map (fun o => o.get_gamma (0, 0)), m ≤ x)
  ∧ (∃ m, cont2.get_gamma (0, 0) true = .ok m
        ∧ m ∈ cont2.obstacle_list.map (fun o => o.get_gamma (0, 0))
        ∧ ∀ x ∈ cont2.obstacle_list.map (fun o => o.get_gamma (0, 0)), m ≤ x) :=
  get_gamma_is_min tree3 cont2 (0, 0) (by decide) (by decide)

/-- C3 counterexample: the claim states `set_root` fails on a non-empty
tree.  On the one-node tree it proceeds without failure: the obstacle list
grows to two entries, both local poses are recorded, and graph node 0 is
simply re-registered. -/
theorem set_root_on_nonempty_proceeds :
    (tree1.set_root obsB).obstacle_list.length = 2
  ∧ (tree1.set_root obsB).graph.nodes.map (fun n => n.id) = [0]
  ∧ (tree1.set_root obsB).local_poses = [obsA.pose, obsB.pose] := by decide

/-- C3 (amended): `set_root` performs no emptiness check and cannot fail:
on any tree it appends the shape and its local pose, and (re-)adds graph
node 0, resetting the root node's recorded children list. -/
theorem set_root_never_fails (t : BlockArchObstacle) (obstacle : Obstacle) :
    (t.set_root obstacle).obstacle_list.length = t.obstacle_list.length + 1
  ∧ (t.set_root obstacle).local_poses = t.local_poses ++ [obstacle.pose]
  ∧ ∀ nd ∈ (t.set_root obstacle).graph.nodes, nd.id = 0 → nd.indeces_children = [] := by
  refine ⟨by simp [BlockArchObstacle.set_root], rfl, ?_⟩
  intro nd hnd h0
  simp only [BlockArchObstacle.set_root] at hnd
  unfold DiGraph.add_node_root at hnd
  by_cases hc : (t.graph.nodes.any (fun n => n.id = 0)) = true
  · rw [if_pos hc] at hnd
    simp only [List.mem_map] at hnd
    obtain ⟨n0, _, heq⟩ := hnd
    by_cases hid : n0.id = 0
    · rw [if_pos hid] at heq
      rw [← heq]
    · rw [if_neg hid] at heq
      rw [← heq] at h0
      exact absurd h0 hid
  · rw [if_neg hc] at hnd
    rcases List.mem_append.mp hnd with h | h
    · exact absurd ((any_id_iff t.graph 0).mpr
        (List.mem_map.mpr ⟨nd, h, h0⟩)) hc
    · simp only [List.mem_singleton] at h
      rw [h]

/-- Witness for the amended C3 at the one-node tree. -/
theorem set_root_never_fails_witness :
    (tree1.set_root obsB).obstacle_list.length = tree1.obstacle_list.length + 1
  ∧ (tree1.set_root obsB).local_poses = tree1.local_poses ++ [obsB.pose] :=
  ⟨(set_root_never_fails tree1 obsB).1, (set_root_never_fails tree1 obsB).2.1⟩

/-- C4: the claim states that `get_parent_idx` and `get_component` fail
explicitly on every out-of-range index.  On the three-node arch tree the
positive half holds (`None` for the root, the unique parent for a valid
non-root index), but `get_parent_idx 5` traps the lookup failure in the
bare `except: breakpoint()` and falls through to `None` instead of failing,
and `get_component (-1)` silently returns node 2 (Python negative
indexing); only a non-negative out-of-range index raises `IndexError`. -/
theorem get_parent_idx_swallows_invalid :
    tree3.get_parent_idx 0 = (none, false)
  ∧ tree3.get_parent_idx 1 = (some 0, false)
  ∧ tree3.get_parent_idx 2 = (some 0, false)
  ∧ tree3.get_parent_idx 5 = (none, true)
  ∧ tree3.get_component (-1) = tree3.get_component 2
  ∧ isOkE (tree3.get_component (-1)) = true
  ∧ isOkE (tree3.get_component 5) = false :=
  ⟨by decide, by decide, by decide, by decide, rfl, by decide, by decide⟩

/-- C5 counterexample: the claim states `add_component` with a parent index
that names no existing node always fails and leaves the tree unchanged.
On the one-node tree, `add_component` with `parent_ind = 1` (no such node
at call time) raises nothing: the new node is allocated index 1 first, so
the parent lookup then finds the node itself and links it as its own
parent (a self-loop edge). -/
theorem add_component_parent_equal_count_succeeds :
    (tree1.add_component obsB (1, 0) 1).2 = none
  ∧ (1, 1) ∈ (tree1.add_component obsB (1, 0) 1).1.graph.edges
  ∧ (tree1.add_component obsB (1, 0) 1).1.obstacle_list.length = 2 := by
  refine ⟨by decide, by decide, by decide⟩

/-- C5 (amended): for a parent index naming no existing node,
`add_component` raises `KeyError` only when the index also differs from
the freshly allocated one (`= current node count`), and by then the local
pose and the obstacle have already been appended and the graph node added:
the tree is left half-inserted, only the parent edge missing.  When the
invalid parent index equals the current node count the call succeeds
outright, wiring the new node as its own parent. -/
theorem add_component_invalid_parent (t : BlockArchObstacle) (o : Obstacle) (r : Vec2)
    (p : Int) (hp : p ∉ t.graph.nodes.map (fun n => n.id)) :
    (p = (t.obstacle_list.length : Int) →
        (t.add_component o r p).2 = none
      ∧ (p, p) ∈ (t.add_component o r p).1.graph.edges)
  ∧ (p ≠ (t.obstacle_list.length : Int) →
        (t.add_component o r p).2 = some .keyError
      ∧ (t.add_component o r p).1.obstacle_list.length = t.obstacle_list.length + 1
      ∧ (t.add_component o r p).1.local_poses = t.local_poses ++ [o.pose]
      ∧ (t.add_component o r p).1.graph.edges = t.graph.edges) := by
  constructor
  · intro hpn
    subst hpn
    have hfresh := add_node_component_fresh t.graph ((t.obstacle_list.length : Int)) r hp
    have hp1 : ((t.obstacle_list.length : Int)) ∈ (DiGraph.mk
        (t.graph.nodes ++ [⟨((t.obstacle_list.length : Int)), [], some r⟩])
        t.graph.edges).nodes.map (fun n => n.id) := by
      simp
    obtain ⟨g2, hg2⟩ := append_child_ok _ ((t.obstacle_list.length : Int))
      ((t.obstacle_list.length : Int)) hp1
    simp only [BlockArchObstacle.add_component, Obstacle.set_reference_point, hfresh, hg2]
    exact ⟨by trivial, add_edge_mem g2 _ _⟩
  · intro hpn
    obtain ⟨hids, hedges⟩ := add_node_component_ids t.graph (t.obstacle_list.length : Int) r
    have hnot : p ∉ (t.graph.add_node_component ((t.obstacle_list.length : Int)) r).nodes.map
        (fun n => n.id) := by
      rcases hids with h | h
      · rw [h]; exact hp
      · rw [h]
        intro hmem
        rcases List.mem_append.mp hmem with hmem | hmem
        · exact hp hmem
        · simp only [List.mem_singleton] at hmem
          exact hpn hmem
    have herr := append_child_err _ p ((t.obstacle_list.length : Int)) hnot
    simp only [BlockArchObstacle.add_component, Obstacle.set_reference_point, herr]
    refine ⟨by trivial, by simp, by trivial, ?_⟩
    exact hedges

/-- Witness for the amended C5: parent index 5 on the one-node tree. -/
theorem add_component_invalid_parent_witness :
    (5 : Int) ∉ tree1.graph.nodes.map (fun n => n.id)
  ∧ ((tree1.add_component obsB (1, 0) 5).2 = some .keyError
      ∧ (tree1.add_component obsB (1, 0) 5).1.obstacle_list.length
          = tree1.obstacle_list.length + 1
      ∧ (tree1.add_component obsB (1, 0) 5).1.local_poses
          = tree1.local_poses ++ [obsB.pose]
      ∧ (tree1.add_component obsB (1, 0) 5).1.graph.edges = tree1.graph.edges) :=
  ⟨by decide,
    (add_component_invalid_parent tree1 obsB (1, 0) 5 (by decide)).2 (by decide)⟩

/-- C6 counterexample: the claim states every local-frame query fails
explicitly.  `BlockArchObstacle.get_gamma` with `in_global_frame = false`
does not fail: on the three-member arch tree it maps the position through
the tree pose and returns the aggregated gamma value. -/
theorem tree_local_frame_computes : tree3.get_gamma (0, 0) false = .ok 5 := by decide

/-- C6 (amended): the container's `get_gamma` and `is_in_free_space` raise
`NotImplementedError` on a local-frame request, as claimed; but the tree's
`get_gamma` with `in_global_frame = false` does not fail — it transforms
the position via the tree pose and computes the members' minimum gamma
(the tree defines no `is_in_free_space` of its own at all). -/
theorem local_frame_request_behavior (c : MultiObstacleContainer)
    (t : BlockArchObstacle) (position : Vec2) (ht : 0 < t.obstacle_list.length) :
    c.get_gamma position false = .error .notImplementedError
  ∧ c.is_in_free_space position false = .error .notImplementedError
  ∧ ∃ g, t.get_gamma position false = .ok g := by
  refine ⟨rfl, rfl, ?_⟩
  have hne : t.obstacle_list.map
      (fun o => o.get_gamma (t.pose.transform_position_from_relative position)) ≠ [] := by
    intro hcon
    rw [List.map_eq_nil_iff] at hcon
    rw [hcon] at ht
    simp at ht
  obtain ⟨m, hm, _, _⟩ := np_min_spec _ hne
  refine ⟨m, ?_⟩
  rw [show t.get_gamma position false
      = np_min (t.obstacle_list.map
          (fun o => o.get_gamma (t.pose.transform_position_from_relative position))) from rfl]
  exact hm

/-- Witness for the amended C6 at the two-tree container and the arch
tree, queried at the origin. -/
theorem local_frame_request_behavior_witness :
    cont2.get_gamma (0, 0) false = .error .notImplementedError
  ∧ cont2.is_in_free_space (0, 0) false = .error .notImplementedError
  ∧ ∃ g, tree3.get_gamma (0, 0) false = .ok g :=
  local_frame_request_behavior cont2 tree3 (0, 0) (by decide)

/-- C7: `MultiObstacleContainer.is_in_free_space` is the short-circuiting
AND-fold over the member trees: it returns true iff every member reports
the position free; its member loop is insensitive to everything after the
first occupied member, and it returns false whenever some member is
occupied. -/
theorem container_free_space_and_fold (c : MultiObstacleContainer) (position : Vec2) :
    (c.is_in_free_space position true = .ok true ↔
        ∀ o ∈ c.obstacle_list, o.is_in_free_space position = true)
  ∧ (∀ pre (occ : HierarchyObstacle) suf₁ suf₂, occ.is_in_free_space position = false →
        free_space_loop position (pre ++ occ :: suf₁)
          = free_space_loop position (pre ++ occ :: suf₂))
  ∧ (∀ pre (occ : HierarchyObstacle) suf, occ.is_in_free_space position = false →
        MultiObstacleContainer.is_in_free_space ⟨pre ++ occ :: suf⟩ position true
          = .ok false) := by
  refine ⟨?_, ?_, ?_⟩
  · rw [show c.is_in_free_space position true
        = .ok (free_space_loop position c.obstacle_list) from rfl]
    constructor
    · intro h
      exact (free_space_loop_all_iff position _).mp (Except.ok.inj h)
    · intro h
      rw [(free_space_loop_all_iff position _).mpr h]
  · intro pre occ suf₁ suf₂ h
    exact free_space_loop_stops position pre occ h suf₁ suf₂
  · intro pre occ suf h
    rw [show MultiObstacleContainer.is_in_free_space ⟨pre ++ occ :: suf⟩ position true
        = .ok (free_space_loop position (pre ++ occ :: suf)) from rfl,
      free_space_loop_false position pre occ suf h]

/-- Witness for C7: in the two-tree container the second member is
occupied, so the fold answers false, and the loop's value with a further
tree appended is the value without it (the later tree is never queried). -/
theorem container_free_space_and_fold_witness :
    free_space_loop (0, 0) ([hobsFree] ++ hobsOccupied :: [hobsFree])
      = free_space_loop (0, 0) ([hobsFree] ++ hobsOccupied :: [])
  ∧ MultiObstacleContainer.is_in_free_space ⟨[hobsFree] ++ hobsOccupied :: [hobsFree]⟩
      (0, 0) true = .ok false :=
  ⟨(container_free_space_and_fold cont2 (0, 0)).2.1 [hobsFree] hobsOccupied [hobsFree] []
      (by decide),
    (container_free_space_and_fold cont2 (0, 0)).2.2 [hobsFree] hobsOccupied [hobsFree]
      (by decide)⟩

/-- C8: every tree built by one `set_root` on the empty state followed by
any sequence of valid `add_component` calls (each parent naming an
existing node) is a single rooted tree over the dense indices `0..n-1`
assigned in insertion order: node 0 has no incoming edge, every other
index has exactly one parent edge, every edge goes from a lower to a
higher index (hence there is no directed cycle), and every node is
reachable from the root along parent edges. -/
theorem buildTree_wellformed (pose : Pose) (root : Obstacle)
    (steps : List ComponentSpec)
    (hv : validStepsB ((BlockArchObstacle.mk_empty pose).set_root root) steps = true) :
    (buildTree pose root steps).obstacle_list.length = steps.length + 1
  ∧ (buildTree pose root steps).graph.nodes.map (fun n => n.id)
      = (List.range (buildTree pose root steps).obstacle_list.length).map
          (fun k : ℕ => (k : ℤ))
  ∧ (buildTree pose root steps).graph.edges.filter (fun e => e.2 = 0) = []
  ∧ (∀ i : Int, 1 ≤ i → i < ((buildTree pose root steps).obstacle_list.length : Int) →
      ((buildTree pose root steps).graph.edges.filter (fun e => e.2 = i)).length = 1)
  ∧ (∀ e ∈ (buildTree pose root steps).graph.edges, e.1 < e.2)
  ∧ (∀ i : Int, ¬ EdgePathPos (buildTree pose root steps).graph.edges i i)
  ∧ (∀ i : Int, 0 ≤ i → i < ((buildTree pose root steps).obstacle_list.length : Int) →
      RootedReach (buildTree pose root steps).graph.edges i) := by
  have hwf : TreeWF (buildTree pose root steps) :=
    treeWF_fold steps _ (treeWF_set_root pose root) hv
  have hlen : (buildTree pose root steps).obstacle_list.length = steps.length + 1 := by
    have h1 := foldl_add_component_length steps
      ((BlockArchObstacle.mk_empty pose).set_root root)
    have h2 : ((BlockArchObstacle.mk_empty pose).set_root root).obstacle_list.length = 1 := by
      simp [BlockArchObstacle.set_root, BlockArchObstacle.mk_empty]
    rw [h2] at h1
    rw [show buildTree pose root steps = steps.foldl
        (fun t s => (t.add_component s.obstacle s.reference_position s.parent_ind).1)
        ((BlockArchObstacle.mk_empty pose).set_root root) from rfl, h1]
    omega
  have hmono : ∀ e ∈ (buildTree pose root steps).graph.edges, e.1 < e.2 :=
    fun e he => (hwf.edge_bounds e he).2.1
  refine ⟨hlen, hwf.ids, hwf.root_no_parent, hwf.unique_parent, hmono, ?_, ?_⟩
  · intro i hpath
    exact lt_irrefl i (edgePathPos_lt _ hmono i i hpath)
  · intro i h0 hn
    apply rootedReach_of_parents _ ((buildTree pose root steps).obstacle_list.length : Int)
      hwf.edge_bounds ?_ i.toNat i h0 hn le_rfl
    intro j h1 hj
    rw [hwf.unique_parent j h1 hj]
    norm_num

/-- Witness for C8: the arch build pattern (root plus two children of the
root) is a valid sequence, yields three nodes, and node 2 is reachable
from the root. -/
theorem buildTree_wellformed_witness :
    validStepsB ((BlockArchObstacle.mk_empty poseA).set_root obsA) steps2 = true
  ∧ (buildTree poseA obsA steps2).obstacle_list.length = steps2.length + 1
  ∧ RootedReach (buildTree poseA obsA steps2).graph.edges 2 :=
  ⟨by decide, (buildTree_wellformed poseA obsA steps2 (by decide)).1,
    (buildTree_wellformed poseA obsA steps2 (by decide)).2.2.2.2.2.2 2 (by decide)
      (by decide)⟩

/-- C9: `MultiObstacleContainer.get_gamma` on a container holding zero
trees fails (the builtin minimum of the empty gamma sequence raises
`ValueError`) rather than returning any numeric value. -/
theorem empty_container_gamma_fails (position : Vec2) :
    (MultiObstacleContainer.mk []).get_gamma position true = .error .valueError := rfl

/-- C10: `MultiObstacleContainer.is_in_free_space` on a container holding
zero trees returns true (the AND over zero trees) and does not fail, in
contrast to `get_gamma`, which raises on the empty container. -/
theorem empty_container_free_space_true (position : Vec2) :
    (MultiObstacleContainer.mk []).is_in_free_space position true = .ok true
  ∧ (MultiObstacleContainer.mk []).get_gamma position true = .error .valueError :=
  ⟨rfl, rfl⟩
